import Mathlib

/-!
Verification development for the HiCDOC native routines.

The repository's only visible source file, `src/RcppExports.cpp`, is binding
glue registering two native routines with the host: `constrainedClustering`
(arity 6) and `parseHiCFile` (arity 3).  The bodies of those two routines are
not part of the given material, so the clustering engine and the contact-file
parser below are modelled from the specification.  The registration table
`CallEntries` and the initialization routine `R_init_HiCDOC` are embedded from
the source file itself.  Real arithmetic is modelled exactly by `ℚ`.
-/

namespace HiCDOC

/-- An observation: one row of the numeric matrix, a feature vector. -/
abbrev Obs := List ℚ

/-- The observation matrix: an ordered collection of rows. -/
abbrev Mat := List Obs

/-- Modelled from the spec: squared Euclidean distance between two feature
vectors, the distance metric of the clustering engine (spec sec. 4.1 fixes
Euclidean distance; squared Euclidean has the same minimizers and gives the
within-cluster sum-of-squares score directly). -/
def sqDist (x y : Obs) : ℚ :=
  (List.zipWith (fun a b => (a - b) ^ 2) x y).sum

/-- Fold selecting the best element by score: a later element replaces the
current best only when its score is strictly lower, so on an exact tie the
earliest element wins (spec sec. 4.1: earliest restart wins on exact tie). -/
def pickBest {α : Type} (sc : α → ℚ) (x : α) (l : List α) : α :=
  l.foldl (fun best y => if sc y < sc best then y else best) x

/-- Index in `[0, k)` minimizing `f`, earliest index on ties. -/
def argminIdx (f : ℕ → ℚ) (k : ℕ) : ℕ :=
  pickBest f 0 (List.range k)

/-- Modelled from the spec: one merge step of the link-graph grouping. All
observations carrying the label of `j` get relabelled with the label of `i`,
so the two connected components become one. -/
def mergeGroups (g : List ℕ) (i j : ℕ) : List ℕ :=
  let gi := g.getD i 0
  let gj := g.getD j 0
  g.map (fun x => if x = gj then gi else x)

/-- Modelled from the spec: the connected components of the link graph,
built once from the link list (spec sec. 9, disjoint-set grouping). Entry `i`
is the label of the component of observation `i`. -/
def buildGroups (n : ℕ) (links : List (ℕ × ℕ)) : List ℕ :=
  links.foldl (fun g l => mergeGroups g l.1 l.2) (List.range n)

/-- Modelled from the spec: aggregate distance of a link-component to a
candidate centroid, the sum of member distances (spec sec. 4.1 step 2a). -/
def groupCost (mx : Mat) (groups : List ℕ) (g : ℕ) (cent : Obs) : ℚ :=
  (((List.range mx.length).filter (fun i => decide (groups.getD i 0 = g))).map
    (fun i => sqDist (mx.getD i []) cent)).sum

/-- Modelled from the spec: link-constrained assignment step. Every
observation is assigned to the centroid minimizing its component's aggregate
distance, so the whole component goes to one centroid (spec sec. 4.1 step 2a). -/
def assignStep (mx : Mat) (groups : List ℕ) (cents : List Obs) : List ℕ :=
  (List.range mx.length).map fun i =>
    argminIdx (fun c => groupCost mx groups (groups.getD i 0) (cents.getD c []))
      cents.length

/-- The observation indices currently assigned to cluster `c`. -/
def clusterMembers (n : ℕ) (a : List ℕ) (c : ℕ) : List ℕ :=
  (List.range n).filter (fun i => decide (a.getD i 0 = c))

/-- Componentwise sum of two feature vectors. -/
def vadd (x y : Obs) : Obs := List.zipWith (· + ·) x y

/-- Mean of a collection of feature vectors (empty collection gives `[]`,
never used: the caller keeps the previous centroid for empty clusters). -/
def meanRows (rows : List Obs) : Obs :=
  match rows with
  | [] => []
  | r :: rs => (rs.foldl vadd r).map (fun q => q / ((r :: rs).length : ℚ))

/-- Modelled from the spec: centroid update step. Each centroid with members
becomes the mean of its members; a cluster with zero members keeps its
previous centroid (spec sec. 4.1 step 2b, empty-cluster policy). -/
def updateCentroids (mx : Mat) (a : List ℕ) (old : List Obs) : List Obs :=
  (List.range old.length).map fun c =>
    let mem := clusterMembers mx.length a c
    if mem.isEmpty then old.getD c []
    else meanRows (mem.map (fun i => mx.getD i []))

/-- Modelled from the spec: aggregate centroid movement between consecutive
iterations, the sum of squared distances between each new and previous
centroid (spec sec. 4.1 step 2c). -/
def movement (new old : List Obs) : ℚ :=
  (List.zipWith sqDist new old).sum

/-- One full iteration on the centroids: assignment then centroid update. -/
def stepCentroids (mx : Mat) (groups : List ℕ) (cents : List Obs) : List Obs :=
  updateCentroids mx (assignStep mx groups cents) cents

/-- Modelled from the spec: the iteration loop of one restart. Runs up to
`fuel` iterations, stopping early as soon as the aggregate centroid movement
is at most `maxDelta`; returns the final assignment, the final centroids and
the number of iterations executed (spec sec. 4.1 step 2). -/
def runIters (mx : Mat) (groups : List ℕ) (maxDelta : ℚ) :
    ℕ → List Obs → List ℕ × List Obs × ℕ
  | 0, cents => (assignStep mx groups cents, cents, 0)
  | fuel + 1, cents =>
    let c2 := stepCentroids mx groups cents
    if movement c2 cents ≤ maxDelta ∨ fuel = 0 then
      (assignStep mx groups cents, c2, 1)
    else
      let rest := runIters mx groups maxDelta fuel c2
      (rest.1, rest.2.1, rest.2.2 + 1)

/-- Modelled from the spec: initialization of the `k` centroids of one
restart, sampled from the rows of the matrix under the restart's seed
(spec sec. 4.1 step 1). -/
def initCentroids (mx : Mat) (k : ℕ) (seed : ℕ) : List Obs :=
  (List.range k).map (fun c => mx.getD ((seed + c) % mx.length) [])

/-- Modelled from the spec: within-cluster sum-of-squares score of an
assignment (spec sec. 4.1 step 3, lower is better). -/
def wcss (mx : Mat) (a : List ℕ) (cents : List Obs) : ℚ :=
  ((List.range mx.length).map
    (fun i => sqDist (mx.getD i []) (cents.getD (a.getD i 0) []))).sum

/-- Result of one clustering run: the assignment, the centroids, the score. -/
structure ClusterResult where
  assignment : List ℕ
  centroids : List Obs
  score : ℚ
deriving DecidableEq

/-- The clustering engine's typed failure (spec sec. 7). -/
inductive ClusterError where
  | invalidInput
deriving DecidableEq

/-- Modelled from the spec: one independent restart, from seeded
initialization to convergence or the iteration limit (spec sec. 4.1). -/
def runRestart (mx : Mat) (groups : List ℕ) (maxDelta : ℚ) (maxIter k : ℕ)
    (seeds : ℕ → ℕ) (r : ℕ) : ClusterResult :=
  let out := runIters mx groups maxDelta maxIter (initCentroids mx k (seeds r))
  ⟨out.1, out.2.1, wcss mx out.1 out.2.1⟩

/-- Modelled from the spec: input validation of `cluster` (spec sec. 4.1):
positive cluster, iteration and restart counts, at least `totalClusters`
rows, at least one column, rectangular matrix, in-range link indices. -/
def validInput (mx : Mat) (links : List (ℕ × ℕ))
    (maxIterations totalRestarts totalClusters : ℤ) : Prop :=
  0 < totalClusters ∧ 0 < maxIterations ∧ 0 < totalRestarts ∧
  totalClusters ≤ (mx.length : ℤ) ∧ 0 < (mx.headD []).length ∧
  (∀ row ∈ mx, row.length = (mx.headD []).length) ∧
  ∀ l ∈ links, l.1 < mx.length ∧ l.2 < mx.length

instance validInput.dec (mx : Mat) (links : List (ℕ × ℕ))
    (mi rs k : ℤ) : Decidable (validInput mx links mi rs k) := by
  unfold validInput; infer_instance

/-- Modelled from the spec: the clustering engine `constrainedClustering`,
whose body is absent from the repository (only its binding in
`src/RcppExports.cpp` is visible).  Validates the input, then runs
`totalRestarts` independent seeded restarts and returns the best result,
earliest on ties (spec sec. 4.1).  `seeds` is the fixed restart-seed
sequence. -/
def cluster (mx : Mat) (links : List (ℕ × ℕ)) (maxDelta : ℚ)
    (maxIterations totalRestarts totalClusters : ℤ) (seeds : ℕ → ℕ) :
    Except ClusterError ClusterResult :=
  if validInput mx links maxIterations totalRestarts totalClusters then
    match (List.range totalRestarts.toNat).map
        (runRestart mx (buildGroups mx.length links) maxDelta
          maxIterations.toNat totalClusters.toNat seeds) with
    | [] => Except.error ClusterError.invalidInput
    | r :: rs => Except.ok (pickBest (fun res => res.score) r rs)
  else Except.error ClusterError.invalidInput

/-- One decoded contact entry as stored in a file section. -/
structure ContactEntry where
  chrom : ℕ
  position1 : ℕ
  position2 : ℕ
  count : ℚ
deriving DecidableEq

/-- One row of parsed output, tagged with the caller's sample name and the
requested resolution (spec sec. 3, contact record). -/
structure ContactRecord where
  chrom : ℕ
  position1 : ℕ
  position2 : ℕ
  resolution : ℤ
  count : ℚ
  sampleName : String
deriving DecidableEq

/-- Modelled from the spec: the structure of a binary contact-matrix file as
the parser sees it: a header magic that is either valid or not, and an index
of sections keyed by resolution (spec sec. 4.2; the exact byte layout is not
recoverable from the given material). -/
structure HiCFile where
  magicOk : Bool
  sections : List (ℤ × List ContactEntry)
deriving DecidableEq

/-- The parser's typed failures (spec sec. 4.2 and sec. 7). -/
inductive ParseError where
  | fileNotFound
  | formatError
  | resolutionNotFound
deriving DecidableEq

/-- A contact entry converted to a `ContactRecord` tagged with the sample
name and the requested resolution (spec sec. 4.2). -/
def toRecord (name : String) (res : ℤ) (e : ContactEntry) : ContactRecord :=
  ⟨e.chrom, e.position1, e.position2, res, e.count, name⟩

/-- Modelled from the spec: the parser `parseHiCFile`, whose body is absent
from the repository (only its binding in `src/RcppExports.cpp` is visible).
`fs` models the file system as a partial map from paths to files.  The
parser fails with `fileNotFound` when the path resolves to no file, with
`formatError` when the header magic is unrecognized, with
`resolutionNotFound` when the requested resolution is absent from the index,
and otherwise decodes exactly the requested resolution's entries
(spec sec. 4.2). -/
def parseHiCFile (fs : String → Option HiCFile) (fname : String)
    (resolution : ℤ) (name : String) : Except ParseError (List ContactRecord) :=
  match fs fname with
  | none => Except.error ParseError.fileNotFound
  | some f =>
    if f.magicOk then
      match f.sections.lookup resolution with
      | none => Except.error ParseError.resolutionNotFound
      | some entries => Except.ok (entries.map (toRecord name resolution))
    else Except.error ParseError.formatError

/-- One entry of the registration table: a routine name and its arity,
embedded from `R_CallMethodDef` in `src/RcppExports.cpp`. -/
structure CallMethodDef where
  name : String
  numArgs : ℤ
deriving DecidableEq

/-- The registration table `CallEntries` of `src/RcppExports.cpp` (without
its `{NULL, NULL, 0}` terminator): the two native entry points with their
arities. -/
def CallEntries : List CallMethodDef :=
  [⟨"_HiCDOC_constrainedClustering", 6⟩, ⟨"_HiCDOC_parseHiCFile", 3⟩]

/-- The registration state produced by loading the shared library: which
call routines were registered and whether dynamic symbol lookup stays
enabled. -/
structure DllRegistration where
  callRoutines : List CallMethodDef
  dynamicSymbols : Bool
deriving DecidableEq

/-- Embedded from `R_init_HiCDOC` in `src/RcppExports.cpp`: registers
`CallEntries` via `R_registerRoutines` and disables dynamic symbol lookup
via `R_useDynamicSymbols(dll, FALSE)`. -/
def R_init_HiCDOC : DllRegistration :=
  ⟨CallEntries, false⟩

/-- Host-side resolution of a symbol name against a registration: only the
registered routines are found once dynamic symbol lookup is disabled. -/
def lookupRoutine (reg : DllRegistration) (s : String) : Option CallMethodDef :=
  reg.callRoutines.find? (fun e => e.name == s)

/-! ### Basic lemmas on indexing, distances and best-of selection -/

lemma getD_map_lt {α β : Type} (φ : α → β) (l : List α) (i : ℕ) (d : α) (d2 : β)
    (h : i < l.length) : (l.map φ).getD i d2 = φ (l.getD i d) := by
  rw [List.getD_eq_getElem _ _ (by simpa using h), List.getD_eq_getElem _ _ h,
    List.getElem_map]

lemma getD_range_lt (n i : ℕ) (h : i < n) : (List.range n).getD i 0 = i := by
  rw [List.getD_eq_getElem _ _ (by simpa using h), List.getElem_range]

lemma getD_map_range {α : Type} (f : ℕ → α) (n i : ℕ) (d : α) (h : i < n) :
    ((List.range n).map f).getD i d = f i := by
  rw [getD_map_lt f _ i 0 d (by simpa using h), getD_range_lt n i h]

lemma sqDist_cons (a b : ℚ) (x y : Obs) :
    sqDist (a :: x) (b :: y) = (a - b) ^ 2 + sqDist x y := by
  simp [sqDist]

lemma sqDist_self (x : Obs) : sqDist x x = 0 := by
  induction x with
  | nil => rfl
  | cons a x ih => rw [sqDist_cons, ih]; ring

lemma sqDist_nonneg (x y : Obs) : 0 ≤ sqDist x y := by
  induction x generalizing y with
  | nil => cases y <;> simp [sqDist]
  | cons a x ih =>
    cases y with
    | nil => simp [sqDist]
    | cons b y => rw [sqDist_cons]; exact add_nonneg (sq_nonneg _) (ih y)

lemma sqDist_eq_zero_iff (x y : Obs) (h : x.length = y.length) :
    sqDist x y = 0 ↔ x = y := by
  induction x generalizing y with
  | nil =>
    cases y with
    | nil => simp [sqDist]
    | cons b y => simp at h
  | cons a x ih =>
    cases y with
    | nil => simp at h
    | cons b y =>
      rw [sqDist_cons]
      constructor
      · intro h0
        have h1 := (add_eq_zero_iff_of_nonneg (sq_nonneg (a - b))
          (sqDist_nonneg x y)).1 h0
        have hab : a = b := by
          have := sq_eq_zero_iff.1 h1.1
          linarith [sub_eq_zero.1 this]
        have hxy : x = y := (ih y (by simpa using h)).1 h1.2
        rw [hab, hxy]
      · intro he
        injection he with h1 h2
        rw [h1, h2, sqDist_self]
        ring

lemma sqDist_pos (x y : Obs) (h : x.length = y.length) (hne : x ≠ y) :
    0 < sqDist x y :=
  lt_of_le_of_ne (sqDist_nonneg x y)
    (fun h0 => hne ((sqDist_eq_zero_iff x y h).1 h0.symm))

lemma pickBest_cons {α : Type} (sc : α → ℚ) (x y : α) (ys : List α) :
    pickBest sc x (y :: ys) = pickBest sc (if sc y < sc x then y else x) ys := rfl

lemma pickBest_mem {α : Type} (sc : α → ℚ) (x : α) (l : List α) :
    pickBest sc x l = x ∨ pickBest sc x l ∈ l := by
  induction l generalizing x with
  | nil => left; rfl
  | cons y ys ih =>
    rw [pickBest_cons]
    rcases ih (if sc y < sc x then y else x) with h | h
    · rw [h]
      split
      · right; exact List.mem_cons_self y ys
      · left; rfl
    · right; exact List.mem_cons_of_mem y h

/-! ### Link grouping: connected components of the link graph -/

lemma length_mergeGroups (g : List ℕ) (i j : ℕ) :
    (mergeGroups g i j).length = g.length := by
  simp [mergeGroups]

lemma foldl_merge_length (links : List (ℕ × ℕ)) :
    ∀ g : List ℕ,
      (links.foldl (fun acc l => mergeGroups acc l.1 l.2) g).length = g.length := by
  induction links with
  | nil => intro g; rfl
  | cons p ps ih =>
    intro g
    rw [List.foldl_cons, ih, length_mergeGroups]

lemma length_buildGroups (n : ℕ) (links : List (ℕ × ℕ)) :
    (buildGroups n links).length = n := by
  rw [buildGroups, foldl_merge_length, List.length_range]

lemma mergeGroups_getD_pres (g : List ℕ) (i j a b : ℕ)
    (ha : a < g.length) (hb : b < g.length) (h : g.getD a 0 = g.getD b 0) :
    (mergeGroups g i j).getD a 0 = (mergeGroups g i j).getD b 0 := by
  simp only [mergeGroups]
  rw [getD_map_lt _ g a 0 0 ha, getD_map_lt _ g b 0 0 hb, h]

lemma mergeGroups_getD_link (g : List ℕ) (i j : ℕ)
    (hi : i < g.length) (hj : j < g.length) :
    (mergeGroups g i j).getD i 0 = (mergeGroups g i j).getD j 0 := by
  simp only [mergeGroups]
  rw [getD_map_lt _ g i 0 0 hi, getD_map_lt _ g j 0 0 hj]
  by_cases h : g.getD i 0 = g.getD j 0 <;> simp [h]

lemma foldl_merge_pres (links : List (ℕ × ℕ)) :
    ∀ (g : List ℕ) (a b : ℕ), a < g.length → b < g.length →
      g.getD a 0 = g.getD b 0 →
      (links.foldl (fun acc l => mergeGroups acc l.1 l.2) g).getD a 0 =
        (links.foldl (fun acc l => mergeGroups acc l.1 l.2) g).getD b 0 := by
  induction links with
  | nil => intro g a b _ _ h; exact h
  | cons p ps ih =>
    intro g a b ha hb h
    rw [List.foldl_cons]
    exact ih (mergeGroups g p.1 p.2) a b
      (by rw [length_mergeGroups]; exact ha)
      (by rw [length_mergeGroups]; exact hb)
      (mergeGroups_getD_pres g p.1 p.2 a b ha hb h)

lemma foldl_merge_link (links : List (ℕ × ℕ)) :
    ∀ (g : List ℕ) (i j : ℕ), (i, j) ∈ links → i < g.length → j < g.length →
      (links.foldl (fun acc l => mergeGroups acc l.1 l.2) g).getD i 0 =
        (links.foldl (fun acc l => mergeGroups acc l.1 l.2) g).getD j 0 := by
  induction links with
  | nil => intro g i j hmem; cases hmem
  | cons p ps ih =>
    intro g i j hmem hi hj
    rw [List.foldl_cons]
    rcases List.mem_cons.1 hmem with heq | hmem2
    · subst heq
      exact foldl_merge_pres ps (mergeGroups g i j) i j
        (by rw [length_mergeGroups]; exact hi)
        (by rw [length_mergeGroups]; exact hj)
        (mergeGroups_getD_link g i j hi hj)
    · exact ih (mergeGroups g p.1 p.2) i j hmem2
        (by rw [length_mergeGroups]; exact hi)
        (by rw [length_mergeGroups]; exact hj)

lemma buildGroups_link (n : ℕ) (links : List (ℕ × ℕ)) (i j : ℕ)
    (hmem : (i, j) ∈ links) (hi : i < n) (hj : j < n) :
    (buildGroups n links).getD i 0 = (buildGroups n links).getD j 0 :=
  foldl_merge_link links (List.range n) i j hmem (by simpa using hi)
    (by simpa using hj)

/-! ### The assignment step and the iteration loop -/

lemma assignStep_getD (mx : Mat) (groups : List ℕ) (cents : List Obs) (i : ℕ)
    (h : i < mx.length) :
    (assignStep mx groups cents).getD i 0 =
      argminIdx (fun c => groupCost mx groups (groups.getD i 0) (cents.getD c []))
        cents.length := by
  unfold assignStep
  exact getD_map_range _ mx.length i 0 h

lemma assignStep_linked (mx : Mat) (groups : List ℕ) (cents : List Obs)
    (i j : ℕ) (hi : i < mx.length) (hj : j < mx.length)
    (h : groups.getD i 0 = groups.getD j 0) :
    (assignStep mx groups cents).getD i 0 =
      (assignStep mx groups cents).getD j 0 := by
  rw [assignStep_getD mx groups cents i hi, assignStep_getD mx groups cents j hj, h]

lemma runIters_succ (mx : Mat) (groups : List ℕ) (δ : ℚ) (fuel : ℕ)
    (cents : List Obs) :
    runIters mx groups δ (fuel + 1) cents =
      if movement (stepCentroids mx groups cents) cents ≤ δ ∨ fuel = 0 then
        (assignStep mx groups cents, stepCentroids mx groups cents, 1)
      else
        ((runIters mx groups δ fuel (stepCentroids mx groups cents)).1,
          (runIters mx groups δ fuel (stepCentroids mx groups cents)).2.1,
          (runIters mx groups δ fuel (stepCentroids mx groups cents)).2.2 + 1) :=
  rfl

lemma runIters_fst (mx : Mat) (groups : List ℕ) (δ : ℚ) :
    ∀ (fuel : ℕ) (cents : List Obs),
      ∃ c, (runIters mx groups δ fuel cents).1 = assignStep mx groups c := by
  intro fuel
  induction fuel with
  | zero => intro cents; exact ⟨cents, rfl⟩
  | succ n ih =>
    intro cents
    rw [runIters_succ]
    split
    · exact ⟨cents, rfl⟩
    · exact ih (stepCentroids mx groups cents)

lemma cluster_ok_form (mx : Mat) (links : List (ℕ × ℕ)) (δ : ℚ) (mi rs k : ℤ)
    (seeds : ℕ → ℕ) (res : ClusterResult)
    (hok : cluster mx links δ mi rs k seeds = Except.ok res) :
    validInput mx links mi rs k ∧
      ∃ r, r < rs.toNat ∧
        res = runRestart mx (buildGroups mx.length links) δ mi.toNat k.toNat
          seeds r := by
  unfold cluster at hok
  split at hok
  case isFalse => cases hok
  case isTrue hvalid =>
    refine ⟨hvalid, ?_⟩
    split at hok
    case h_1 => cases hok
    case h_2 r rs2 heq =>
      injection hok with hok
      have hres : res ∈ r :: rs2 := by
        rw [← hok]
        rcases pickBest_mem (fun res => res.score) r rs2 with h | h
        · rw [h]; exact List.mem_cons_self r rs2
        · exact List.mem_cons_of_mem r h
      rw [← heq] at hres
      obtain ⟨ridx, hridx, hfeq⟩ := List.mem_map.1 hres
      exact ⟨ridx, List.mem_range.1 hridx, hfeq.symm⟩

/-! ### Claim C1: linked observations end in the same cluster -/

/-- C1: for every successful call to `cluster` and every link pair `(i, j)`
in `links`, the returned best assignment satisfies
`assignment[i] = assignment[j]`: linked observations always end in the same
cluster. -/
theorem linked_pairs_share_cluster (mx : Mat) (links : List (ℕ × ℕ)) (δ : ℚ)
    (mi rs k : ℤ) (seeds : ℕ → ℕ) (res : ClusterResult) (i j : ℕ)
    (hok : cluster mx links δ mi rs k seeds = Except.ok res)
    (hmem : (i, j) ∈ links) :
    res.assignment.getD i 0 = res.assignment.getD j 0 := by
  obtain ⟨hvalid, r, hr, hres⟩ := cluster_ok_form mx links δ mi rs k seeds res hok
  have hi : i < mx.length := (hvalid.2.2.2.2.2.2 (i, j) hmem).1
  have hj : j < mx.length := (hvalid.2.2.2.2.2.2 (i, j) hmem).2
  have hassign : res.assignment =
      (runIters mx (buildGroups mx.length links) δ mi.toNat
        (initCentroids mx k.toNat (seeds r))).1 := by
    rw [hres]; rfl
  obtain ⟨c, hc⟩ := runIters_fst mx (buildGroups mx.length links) δ mi.toNat
    (initCentroids mx k.toNat (seeds r))
  rw [hassign, hc]
  exact assignStep_linked mx (buildGroups mx.length links) c i j hi hj
    (buildGroups_link mx.length links i j hmem hi hj)

/-- Witness for C1 at a concrete input: two linked one-dimensional
observations clustered into one cluster. -/
theorem linked_pairs_share_cluster_witness :
    cluster [[0], [1]] [(0, 1)] 0 1 1 1 (fun _ => 0) =
      Except.ok ⟨[0, 0], [[1/2]], 1/2⟩ ∧
    (⟨[0, 0], [[1/2]], 1/2⟩ : ClusterResult).assignment.getD 0 0 =
      (⟨[0, 0], [[1/2]], 1/2⟩ : ClusterResult).assignment.getD 1 0 := by
  have hok : cluster [[0], [1]] [(0, 1)] 0 1 1 1 (fun _ => 0) =
      Except.ok ⟨[0, 0], [[1/2]], 1/2⟩ := by
    norm_num [cluster, validInput, runRestart, runIters, stepCentroids,
      updateCentroids, assignStep, argminIdx, pickBest, groupCost, buildGroups,
      mergeGroups, clusterMembers, initCentroids, wcss, sqDist, movement,
      meanRows, vadd, List.range_succ]
  exact ⟨hok, linked_pairs_share_cluster [[0], [1]] [(0, 1)] 0 1 1 1
    (fun _ => 0) ⟨[0, 0], [[1/2]], 1/2⟩ 0 1 hok (by simp)⟩

/-! ### Claim C2: determinism of `cluster` -/

/-- C2: `cluster` is deterministic as a two-run property: two calls with
identical matrix, links, parameters and an identical fixed restart-seed
sequence return the identical result (hence identical best assignment and
identical best score).  The modelled engine is a pure function of its
arguments and the seed sequence. -/
theorem cluster_deterministic (mx1 mx2 : Mat) (links1 links2 : List (ℕ × ℕ))
    (d1 d2 : ℚ) (mi1 mi2 rs1 rs2 k1 k2 : ℤ) (seeds1 seeds2 : ℕ → ℕ)
    (hmx : mx1 = mx2) (hl : links1 = links2) (hd : d1 = d2) (hmi : mi1 = mi2)
    (hrs : rs1 = rs2) (hk : k1 = k2) (hs : seeds1 = seeds2) :
    cluster mx1 links1 d1 mi1 rs1 k1 seeds1 =
      cluster mx2 links2 d2 mi2 rs2 k2 seeds2 := by
  rw [hmx, hl, hd, hmi, hrs, hk, hs]

/-- Witness for C2 at a concrete input. -/
theorem cluster_deterministic_witness :
    cluster [[0], [1]] [] 0 1 1 2 (fun _ => 0) =
      cluster [[0], [1]] [] 0 1 1 2 (fun _ => 0) :=
  cluster_deterministic [[0], [1]] [[0], [1]] [] [] 0 0 1 1 1 1 2 2
    (fun _ => 0) (fun _ => 0) rfl rfl rfl rfl rfl rfl rfl

/-! ### Claim C4: invalid input fails eagerly with `InvalidInput` -/

/-- C4: with `totalClusters ≤ 0`, or `maxIterations ≤ 0`, or a link pair
holding an index out of range (at or above the number of rows), `cluster`
fails with the `InvalidInput` error: validation precedes all computation,
and the error carries no partial assignment, centroids or score. -/
theorem cluster_invalid_input (mx : Mat) (links : List (ℕ × ℕ)) (δ : ℚ)
    (mi rs k : ℤ) (seeds : ℕ → ℕ)
    (hbad : k ≤ 0 ∨ mi ≤ 0 ∨ ∃ l ∈ links, mx.length ≤ l.1 ∨ mx.length ≤ l.2) :
    cluster mx links δ mi rs k seeds =
      Except.error ClusterError.invalidInput := by
  have hnot : ¬ validInput mx links mi rs k := by
    intro hvalid
    obtain ⟨hk, hmi, _, _, _, _, hlinks⟩ := hvalid
    rcases hbad with h | h | ⟨l, hl, h⟩
    · omega
    · omega
    · rcases h with h | h
      · exact absurd (hlinks l hl).1 (by omega)
      · exact absurd (hlinks l hl).2 (by omega)
  simp only [cluster, if_neg hnot]

/-- Witness for C4 at a concrete input: `totalClusters = 0`. -/
theorem cluster_invalid_input_witness :
    ((0 : ℤ) ≤ 0 ∨ (1 : ℤ) ≤ 0 ∨
      ∃ l ∈ ([] : List (ℕ × ℕ)), [[(0 : ℚ)]].length ≤ l.1 ∨
        [[(0 : ℚ)]].length ≤ l.2) ∧
    cluster [[0]] [] 0 1 1 0 (fun _ => 0) =
      Except.error ClusterError.invalidInput :=
  ⟨Or.inl (by norm_num),
    cluster_invalid_input [[0]] [] 0 1 1 0 (fun _ => 0)
      (Or.inl (by norm_num))⟩

/-! ### Claim C8: the centroid update preserves the number of clusters -/

lemma length_updateCentroids (mx : Mat) (a : List ℕ) (old : List Obs) :
    (updateCentroids mx a old).length = old.length := by
  simp [updateCentroids]

lemma length_initCentroids (mx : Mat) (k s : ℕ) :
    (initCentroids mx k s).length = k := by
  simp [initCentroids]

lemma updateCentroids_getD (mx : Mat) (a : List ℕ) (old : List Obs) (c : ℕ)
    (h : c < old.length) :
    (updateCentroids mx a old).getD c [] =
      if (clusterMembers mx.length a c).isEmpty then old.getD c []
      else meanRows ((clusterMembers mx.length a c).map (fun i => mx.getD i [])) := by
  unfold updateCentroids
  exact getD_map_range _ old.length c [] h

lemma runIters_centroids_length (mx : Mat) (groups : List ℕ) (δ : ℚ) :
    ∀ (fuel : ℕ) (cents : List Obs),
      ((runIters mx groups δ fuel cents).2.1).length = cents.length := by
  intro fuel
  induction fuel with
  | zero => intro cents; rfl
  | succ n ih =>
    intro cents
    rw [runIters_succ]
    split
    · exact length_updateCentroids mx _ cents
    · rw [show (((runIters mx groups δ n (stepCentroids mx groups cents)).1,
        (runIters mx groups δ n (stepCentroids mx groups cents)).2.1,
        (runIters mx groups δ n (stepCentroids mx groups cents)).2.2 + 1)).2.1 =
          (runIters mx groups δ n (stepCentroids mx groups cents)).2.1 from rfl,
        ih (stepCentroids mx groups cents)]
      exact length_updateCentroids mx _ cents

/-- C8: the centroid update step preserves the number of centroids: the
initialization creates exactly `k` centroids, every update returns as many
centroids as it received (so no cluster is ever dropped mid-run, and the
loop preserves the count through every iteration), a cluster with at least
one assigned member is recomputed as the mean of its members, and a cluster
with zero assigned members keeps its previous centroid unchanged. -/
theorem centroid_update_invariant (mx : Mat) (a : List ℕ) (old : List Obs)
    (groups : List ℕ) (δ : ℚ) (fuel : ℕ) (cents : List Obs) (k s c : ℕ)
    (hc : c < old.length) :
    (initCentroids mx k s).length = k ∧
    (updateCentroids mx a old).length = old.length ∧
    ((clusterMembers mx.length a c).isEmpty = true →
      (updateCentroids mx a old).getD c [] = old.getD c []) ∧
    ((clusterMembers mx.length a c).isEmpty = false →
      (updateCentroids mx a old).getD c [] =
        meanRows ((clusterMembers mx.length a c).map (fun i => mx.getD i []))) ∧
    ((runIters mx groups δ fuel cents).2.1).length = cents.length := by
  refine ⟨length_initCentroids mx k s, length_updateCentroids mx a old, ?_, ?_,
    runIters_centroids_length mx groups δ fuel cents⟩
  · intro hemp
    rw [updateCentroids_getD mx a old c hc, if_pos hemp]
  · intro hemp
    rw [updateCentroids_getD mx a old c hc, if_neg (by simp [hemp])]

/-- Witness for C8 at a concrete input: two observations assigned to cluster
1, so cluster 0 is empty and keeps its previous centroid. -/
theorem centroid_update_invariant_witness :
    (0 : ℕ) < ([[(3 : ℚ)], [4]] : List Obs).length ∧
    ((initCentroids [[0], [1]] 2 0).length = 2 ∧
    (updateCentroids [[0], [1]] [1, 1] [[3], [4]]).length =
      ([[(3 : ℚ)], [4]] : List Obs).length ∧
    ((clusterMembers ([[(0 : ℚ)], [1]] : Mat).length [1, 1] 0).isEmpty = true →
      (updateCentroids [[0], [1]] [1, 1] [[3], [4]]).getD 0 [] =
        ([[(3 : ℚ)], [4]] : List Obs).getD 0 []) ∧
    ((clusterMembers ([[(0 : ℚ)], [1]] : Mat).length [1, 1] 0).isEmpty = false →
      (updateCentroids [[0], [1]] [1, 1] [[3], [4]]).getD 0 [] =
        meanRows ((clusterMembers ([[(0 : ℚ)], [1]] : Mat).length [1, 1] 0).map
          (fun i => ([[(0 : ℚ)], [1]] : Mat).getD i []))) ∧
    ((runIters [[0], [1]] [0, 0] 0 1 [[0]]).2.1).length =
      ([[(0 : ℚ)]] : List Obs).length) :=
  ⟨by norm_num,
    centroid_update_invariant [[0], [1]] [1, 1] [[3], [4]] [0, 0] 0 1 [[0]] 2 0 0
      (by norm_num)⟩

/-! ### Claim C9: the iteration loop is bounded and stops on convergence -/

/-- C9: the iteration loop of every restart (`runRestart` calls `runIters`
with `fuel = maxIterations`) executes at least one and at most `fuel`
iterations; it never continues past an iteration whose aggregate centroid
movement is at most `maxDelta` (every iteration before the last moved more
than `maxDelta`); and when it stops before exhausting `fuel`, it is exactly
because the last executed iteration moved at most `maxDelta`.  Reaching the
iteration limit is not an error: the loop always returns a result. -/
theorem iteration_loop_bound (mx : Mat) (groups : List ℕ) (δ : ℚ) (fuel : ℕ)
    (cents : List Obs) (hfuel : 1 ≤ fuel) :
    1 ≤ (runIters mx groups δ fuel cents).2.2 ∧
    (runIters mx groups δ fuel cents).2.2 ≤ fuel ∧
    (∀ i, i + 1 < (runIters mx groups δ fuel cents).2.2 →
      ¬ movement ((stepCentroids mx groups)^[i + 1] cents)
          ((stepCentroids mx groups)^[i] cents) ≤ δ) ∧
    ((runIters mx groups δ fuel cents).2.2 < fuel →
      movement
        ((stepCentroids mx groups)^[(runIters mx groups δ fuel cents).2.2] cents)
        ((stepCentroids mx groups)^[(runIters mx groups δ fuel cents).2.2 - 1]
          cents) ≤ δ) := by
  induction fuel generalizing cents with
  | zero => omega
  | succ n ih =>
    rw [runIters_succ]
    split
    case isTrue h =>
      dsimp only
      refine ⟨le_refl 1, by omega, fun i hi => by omega, fun hlt => ?_⟩
      have hmov : movement (stepCentroids mx groups cents) cents ≤ δ := by
        rcases h with h | h
        · exact h
        · omega
      simpa using hmov
    case isFalse h =>
      push_neg at h
      obtain ⟨hmov, hn0⟩ := h
      obtain ⟨h1, h2, h3, h4⟩ := ih (stepCentroids mx groups cents) (by omega)
      dsimp only
      refine ⟨by omega, by omega, ?_, ?_⟩
      · intro i hi
        cases i with
        | zero => simpa using hmov
        | succ m =>
          rw [Function.iterate_succ_apply (stepCentroids mx groups) (m + 1) cents,
            Function.iterate_succ_apply (stepCentroids mx groups) m cents]
          exact h3 m (by omega)
      · intro hlt
        have h5 := h4 (by omega)
        obtain ⟨m, hm⟩ : ∃ m,
            (runIters mx groups δ n (stepCentroids mx groups cents)).2.2 =
              m + 1 :=
          ⟨(runIters mx groups δ n (stepCentroids mx groups cents)).2.2 - 1,
            by omega⟩
        rw [hm] at h5 ⊢
        simp only [Nat.add_sub_cancel] at h5 ⊢
        rw [Function.iterate_succ_apply (stepCentroids mx groups) (m + 1) cents,
          Function.iterate_succ_apply (stepCentroids mx groups) m cents]
        exact h5

/-- Witness for C9 at a concrete input needing both iterations of its
budget: the centroid moves on the first iteration and is stable on the
second. -/
theorem iteration_loop_bound_witness :
    (1 : ℕ) ≤ 2 ∧
    (1 ≤ (runIters [[0], [1]] [0, 0] 0 2 [[0]]).2.2 ∧
    (runIters [[0], [1]] [0, 0] 0 2 [[0]]).2.2 ≤ 2 ∧
    (∀ i, i + 1 < (runIters [[0], [1]] [0, 0] 0 2 [[0]]).2.2 →
      ¬ movement ((stepCentroids [[0], [1]] [0, 0])^[i + 1] [[0]])
          ((stepCentroids [[0], [1]] [0, 0])^[i] [[0]]) ≤ 0) ∧
    ((runIters [[0], [1]] [0, 0] 0 2 [[0]]).2.2 < 2 →
      movement
        ((stepCentroids [[0], [1]] [0, 0])^[(runIters [[0], [1]] [0, 0] 0 2
          [[0]]).2.2] [[0]])
        ((stepCentroids [[0], [1]] [0, 0])^[(runIters [[0], [1]] [0, 0] 0 2
          [[0]]).2.2 - 1] [[0]]) ≤ 0)) :=
  ⟨by norm_num, iteration_loop_bound [[0], [1]] [0, 0] 0 2 [[0]] (by norm_num)⟩

/-! ### Claim C3: best-of-restarts selection, earliest on ties -/

lemma getD_cons_one {α : Type} (x y : α) (ys : List α) (d : α) :
    (x :: y :: ys).getD 1 d = y := rfl

lemma getD_cons_add_one {α : Type} (y : α) (ys : List α) (m : ℕ) (d : α) :
    (y :: ys).getD (m + 1) d = ys.getD m d := rfl

lemma getD_cons_add_two {α : Type} (x y : α) (ys : List α) (m : ℕ) (d : α) :
    (x :: y :: ys).getD (m + 2) d = ys.getD m d := rfl

lemma pickBest_spec {α : Type} (sc : α → ℚ) (l : List α) :
    ∀ x d : α, ∃ i, i < (x :: l).length ∧
      pickBest sc x l = (x :: l).getD i d ∧
      (∀ j, j < (x :: l).length →
        sc ((x :: l).getD i d) ≤ sc ((x :: l).getD j d)) ∧
      (∀ j, j < i → sc ((x :: l).getD i d) < sc ((x :: l).getD j d)) := by
  induction l with
  | nil =>
    intro x d
    refine ⟨0, by simp, rfl, ?_, fun j hj => absurd hj (by omega)⟩
    intro j hj
    have hj0 : j = 0 := by simp only [List.length_cons, List.length_nil] at hj; omega
    subst hj0
    exact le_rfl
  | cons y ys ih =>
    intro x d
    rw [pickBest_cons]
    by_cases hxy : sc y < sc x
    · rw [if_pos hxy]
      obtain ⟨i2, hi2, heq, hmin, hstrict⟩ := ih y d
      cases i2 with
      | zero =>
        rw [List.getD_cons_zero] at heq
        refine ⟨1, by simp only [List.length_cons]; omega, ?_, ?_, ?_⟩
        · rw [getD_cons_one]; exact heq
        · intro j hj
          rw [getD_cons_one]
          cases j with
          | zero => rw [List.getD_cons_zero]; exact le_of_lt hxy
          | succ m =>
            rw [getD_cons_add_one]
            have hm := hmin m
              (by simp only [List.length_cons] at hj ⊢; omega)
            rw [List.getD_cons_zero] at hm
            exact hm
        · intro j hj
          have hj0 : j = 0 := by omega
          subst hj0
          rw [getD_cons_one, List.getD_cons_zero]
          exact hxy
      | succ m =>
        rw [getD_cons_add_one] at heq
        have hys : m < ys.length := by
          simp only [List.length_cons] at hi2; omega
        have hz := hstrict 0 (by omega)
        rw [List.getD_cons_zero, getD_cons_add_one] at hz
        refine ⟨m + 2, by simp only [List.length_cons]; omega, ?_, ?_, ?_⟩
        · rw [getD_cons_add_two]; exact heq
        · intro j hj
          rw [getD_cons_add_two]
          cases j with
          | zero =>
            rw [List.getD_cons_zero]
            exact le_of_lt (lt_trans hz hxy)
          | succ j2 =>
            cases j2 with
            | zero => rw [getD_cons_one]; exact le_of_lt hz
            | succ j3 =>
              rw [getD_cons_add_two]
              have hm := hmin (j3 + 1)
                (by simp only [List.length_cons] at hj ⊢; omega)
              rw [getD_cons_add_one, getD_cons_add_one] at hm
              exact hm
        · intro j hj
          rw [getD_cons_add_two]
          cases j with
          | zero => rw [List.getD_cons_zero]; exact lt_trans hz hxy
          | succ j2 =>
            cases j2 with
            | zero => rw [getD_cons_one]; exact hz
            | succ j3 =>
              rw [getD_cons_add_two]
              have hs := hstrict (j3 + 1) (by omega)
              rw [getD_cons_add_one, getD_cons_add_one] at hs
              exact hs
    · rw [if_neg hxy]
      have hxy2 : sc x ≤ sc y := not_lt.1 hxy
      obtain ⟨i2, hi2, heq, hmin, hstrict⟩ := ih x d
      cases i2 with
      | zero =>
        rw [List.getD_cons_zero] at heq
        refine ⟨0, by simp only [List.length_cons]; omega, ?_, ?_,
          fun j hj => absurd hj (by omega)⟩
        · rw [List.getD_cons_zero]; exact heq
        · intro j hj
          rw [List.getD_cons_zero]
          cases j with
          | zero => rw [List.getD_cons_zero]
          | succ m =>
            cases m with
            | zero => rw [getD_cons_one]; exact hxy2
            | succ m2 =>
              rw [getD_cons_add_two]
              have hm := hmin (m2 + 1)
                (by simp only [List.length_cons] at hj ⊢; omega)
              rw [List.getD_cons_zero, getD_cons_add_one] at hm
              exact hm
      | succ m =>
        rw [getD_cons_add_one] at heq
        have hys : m < ys.length := by
          simp only [List.length_cons] at hi2; omega
        have hz := hstrict 0 (by omega)
        rw [List.getD_cons_zero, getD_cons_add_one] at hz
        refine ⟨m + 2, by simp only [List.length_cons]; omega, ?_, ?_, ?_⟩
        · rw [getD_cons_add_two]; exact heq
        · intro j hj
          rw [getD_cons_add_two]
          cases j with
          | zero => rw [List.getD_cons_zero]; exact le_of_lt hz
          | succ j2 =>
            cases j2 with
            | zero =>
              rw [getD_cons_one]
              exact le_of_lt (lt_of_lt_of_le hz hxy2)
            | succ j3 =>
              rw [getD_cons_add_two]
              have hm := hmin (j3 + 1)
                (by simp only [List.length_cons] at hj ⊢; omega)
              rw [getD_cons_add_one, getD_cons_add_one] at hm
              exact hm
        · intro j hj
          rw [getD_cons_add_two]
          cases j with
          | zero => rw [List.getD_cons_zero]; exact hz
          | succ j2 =>
            cases j2 with
            | zero =>
              rw [getD_cons_one]
              exact lt_of_lt_of_le hz hxy2
            | succ j3 =>
              rw [getD_cons_add_two]
              have hs := hstrict (j3 + 1) (by omega)
              rw [getD_cons_add_one, getD_cons_add_one] at hs
              exact hs

/-- C3: on every successful `cluster` call the returned result is the result
of one of the `totalRestarts` restarts, its score is a lower bound on every
restart's final score (hence it equals the minimum over all restarts), and
every restart strictly before the returned one has a strictly larger score:
on an exact tie the earliest restart wins. -/
theorem cluster_best_of_restarts (mx : Mat) (links : List (ℕ × ℕ)) (δ : ℚ)
    (mi rs k : ℤ) (seeds : ℕ → ℕ) (res : ClusterResult)
    (hok : cluster mx links δ mi rs k seeds = Except.ok res) :
    ∃ i, i < rs.toNat ∧
      res = runRestart mx (buildGroups mx.length links) δ mi.toNat k.toNat
        seeds i ∧
      (∀ j, j < rs.toNat → res.score ≤
        (runRestart mx (buildGroups mx.length links) δ mi.toNat k.toNat
          seeds j).score) ∧
      (∀ j, j < i → res.score <
        (runRestart mx (buildGroups mx.length links) δ mi.toNat k.toNat
          seeds j).score) := by
  unfold cluster at hok
  split at hok
  case isFalse => cases hok
  case isTrue hvalid =>
    split at hok
    case h_1 => cases hok
    case h_2 r rs2 heq =>
      injection hok with hok
      obtain ⟨i, hi, heq2, hmin, hstrict⟩ := pickBest_spec (fun t => t.score) rs2 r r
      have hlen : (r :: rs2).length = rs.toNat := by
        rw [← heq, List.length_map, List.length_range]
      have hgetD : ∀ j, j < rs.toNat → (r :: rs2).getD j r =
          runRestart mx (buildGroups mx.length links) δ mi.toNat k.toNat
            seeds j := by
        intro j hj
        rw [← heq]
        exact getD_map_range _ _ j r hj
      have hres_eq : res = (r :: rs2).getD i r := by rw [← hok]; exact heq2
      refine ⟨i, by omega, by rw [hres_eq, hgetD i (by omega)], ?_, ?_⟩
      · intro j hj
        have h5 := hmin j (by omega)
        rw [hgetD i (by omega), hgetD j hj] at h5
        rw [hres_eq, hgetD i (by omega)]
        exact h5
      · intro j hj
        have h5 := hstrict j hj
        rw [hgetD i (by omega), hgetD j (by omega)] at h5
        rw [hres_eq, hgetD i (by omega)]
        exact h5

/-- Witness for C3 at a concrete input with two restarts. -/
theorem cluster_best_of_restarts_witness :
    cluster [[0], [1], [5]] [(0, 1)] 0 3 2 2 (fun r => r) =
      Except.ok ⟨[0, 0, 1], [[1/2], [5]], 1/2⟩ ∧
    ∃ i, i < (2 : ℤ).toNat ∧
      (⟨[0, 0, 1], [[1/2], [5]], 1/2⟩ : ClusterResult) =
        runRestart [[0], [1], [5]] (buildGroups 3 [(0, 1)]) 0 3 2
          (fun r => r) i ∧
      (∀ j, j < (2 : ℤ).toNat →
        (⟨[0, 0, 1], [[1/2], [5]], 1/2⟩ : ClusterResult).score ≤
          (runRestart [[0], [1], [5]] (buildGroups 3 [(0, 1)]) 0 3 2
            (fun r => r) j).score) ∧
      (∀ j, j < i →
        (⟨[0, 0, 1], [[1/2], [5]], 1/2⟩ : ClusterResult).score <
          (runRestart [[0], [1], [5]] (buildGroups 3 [(0, 1)]) 0 3 2
            (fun r => r) j).score) := by
  have hok : cluster [[0], [1], [5]] [(0, 1)] 0 3 2 2 (fun r => r) =
      Except.ok ⟨[0, 0, 1], [[1/2], [5]], 1/2⟩ := by
    norm_num [cluster, validInput, runRestart, runIters, stepCentroids,
      updateCentroids, assignStep, argminIdx, pickBest, groupCost, buildGroups,
      mergeGroups, clusterMembers, initCentroids, wcss, sqDist, movement,
      meanRows, vadd, List.range_succ, show Int.toNat 2 = 2 from rfl,
      show Int.toNat 3 = 3 from rfl]
  exact ⟨hok, cluster_best_of_restarts [[0], [1], [5]] [(0, 1)] 0 3 2 2
    (fun r => r) ⟨[0, 0, 1], [[1/2], [5]], 1/2⟩ hok⟩

/-! ### Claim C5: `totalClusters = N` with no links, helper lemmas -/

lemma getD_mem {α : Type} (l : List α) (i : ℕ) (d : α) (h : i < l.length) :
    l.getD i d ∈ l := by
  rw [List.getD_eq_getElem l d h]
  exact List.getElem_mem h

lemma buildGroups_nil (n : ℕ) : buildGroups n [] = List.range n := rfl

lemma filter_range_eq_single (n g : ℕ) (hg : g < n) :
    (List.range n).filter (fun i => decide (i = g)) = [g] := by
  induction n with
  | zero => omega
  | succ m ih =>
    rw [List.range_succ, List.filter_append]
    by_cases h : g < m
    · rw [ih h]
      have hm : (List.filter (fun i => decide (i = g)) [m]) = [] := by
        have : decide (m = g) = false := by
          rw [decide_eq_false_iff_not]
          omega
        simp [List.filter, this]
      rw [hm, List.append_nil]
    · have hgm : g = m := by omega
      subst hgm
      have h1 : (List.range g).filter (fun i => decide (i = g)) = [] := by
        rw [List.filter_eq_nil_iff]
        intro a ha
        simp only [decide_eq_true_eq]
        have := List.mem_range.1 ha
        omega
      rw [h1]
      simp

lemma groupCost_range (mx : Mat) (g : ℕ) (hg : g < mx.length) (cent : Obs) :
    groupCost mx (List.range mx.length) g cent = sqDist (mx.getD g []) cent := by
  unfold groupCost
  have hpred : ∀ i ∈ List.range mx.length,
      (decide ((List.range mx.length).getD i 0 = g)) = (decide (i = g)) := by
    intro i hi
    rw [getD_range_lt _ _ (List.mem_range.1 hi)]
  rw [List.filter_congr hpred, filter_range_eq_single _ _ hg]
  simp

lemma initCentroids_getD (mx : Mat) (k s c : ℕ) (hc : c < k) :
    (initCentroids mx k s).getD c [] = mx.getD ((s + c) % mx.length) [] := by
  unfold initCentroids
  exact getD_map_range _ k c [] hc

lemma argminIdx_eq_of_unique_zero (f : ℕ → ℚ) (k m : ℕ) (hm : m < k)
    (hfm : f m = 0) (hpos : ∀ c, c < k → c ≠ m → 0 < f c) :
    argminIdx f k = m := by
  obtain ⟨i, hi, heq, hmin, hstrict⟩ := pickBest_spec f (List.range k) 0 0
  rw [List.length_cons, List.length_range] at hi hmin
  obtain ⟨v, hvk, hveq⟩ : ∃ v, v < k ∧ (0 :: List.range k).getD i 0 = v := by
    cases i with
    | zero => exact ⟨0, by omega, List.getD_cons_zero⟩
    | succ j =>
      exact ⟨j, by omega, by rw [getD_cons_add_one, getD_range_lt k j (by omega)]⟩
  have hle : f v ≤ f m := by
    have h5 := hmin (m + 1) (by omega)
    rw [hveq, getD_cons_add_one, getD_range_lt k m hm] at h5
    exact h5
  have hvm : v = m := by
    by_contra hne
    have := hpos v hvk hne
    rw [hfm] at hle
    linarith
  rw [argminIdx, heq, hveq, hvm]

lemma tau_inj (n s c1 c2 : ℕ) (h1 : c1 < n) (h2 : c2 < n)
    (he : (s + c1) % n = (s + c2) % n) : c1 = c2 := by
  have h3 : c1 ≡ c2 [MOD n] := Nat.ModEq.add_left_cancel' s he
  unfold Nat.ModEq at h3
  rw [Nat.mod_eq_of_lt h1, Nat.mod_eq_of_lt h2] at h3
  exact h3

lemma tau_surj (n s i : ℕ) (hn : 0 < n) (hi : i < n) :
    ∃ c, c < n ∧ (s + c) % n = i := by
  refine ⟨(i + (n - s % n)) % n, Nat.mod_lt _ hn, ?_⟩
  obtain ⟨q, r, hr, rfl⟩ : ∃ q r, r < n ∧ s = n * q + r :=
    ⟨s / n, s % n, Nat.mod_lt s hn, (Nat.div_add_mod s n).symm⟩
  have hrq : (n * q + r) % n = r := by
    rw [Nat.mul_add_mod, Nat.mod_eq_of_lt hr]
  rw [hrq]
  rw [Nat.add_mod (n * q + r)]
  rw [Nat.mod_mod_of_dvd _ (dvd_refl n)]
  rw [← Nat.add_mod]
  have he : n * q + r + (i + (n - r)) = n * q + n + i := by omega
  rw [he, show n * q + n + i = n * (q + 1) + i by ring, Nat.mul_add_mod,
    Nat.mod_eq_of_lt hi]

lemma movement_self (x : List Obs) : movement x x = 0 := by
  induction x with
  | nil => rfl
  | cons a l ih =>
    simp only [movement, List.zipWith_cons_cons, List.sum_cons] at ih ⊢
    rw [sqDist_self, ih]
    ring

lemma meanRows_single (x : Obs) : meanRows [x] = x := by
  simp [meanRows]

/-! ### Claim C5: the assignment under distinct rows and k = N -/

/-- With pairwise-distinct rows, `totalClusters = N` and no links, each
observation is assigned the unique centroid that was initialized from its
own row: `(s + assignment[i]) % N = i` and `assignment[i] < N`. -/
lemma assignStep_distinct_rows (mx : Mat) (s : ℕ) (hN : 0 < mx.length)
    (hrect : ∀ row ∈ mx, row.length = (mx.headD []).length)
    (hdist : ∀ i j, i < mx.length → j < mx.length → i ≠ j →
      mx.getD i [] ≠ mx.getD j [])
    (i : ℕ) (hi : i < mx.length) :
    (s + (assignStep mx (List.range mx.length)
        (initCentroids mx mx.length s)).getD i 0) % mx.length = i ∧
    (assignStep mx (List.range mx.length)
        (initCentroids mx mx.length s)).getD i 0 < mx.length := by
  obtain ⟨ci, hci, hti⟩ := tau_surj mx.length s i hN hi
  rw [assignStep_getD mx _ _ i hi, length_initCentroids, getD_range_lt _ i hi]
  have harg : argminIdx (fun c => groupCost mx (List.range mx.length) i
      ((initCentroids mx mx.length s).getD c [])) mx.length = ci := by
    apply argminIdx_eq_of_unique_zero _ mx.length ci hci
    · rw [initCentroids_getD mx _ s ci hci, groupCost_range mx i hi, hti,
        sqDist_self]
    · intro c hc hne
      rw [initCentroids_getD mx _ s c hc, groupCost_range mx i hi]
      apply sqDist_pos
      · rw [hrect _ (getD_mem mx i [] hi),
          hrect _ (getD_mem mx ((s + c) % mx.length) [] (Nat.mod_lt _ hN))]
      · apply hdist i ((s + c) % mx.length) hi (Nat.mod_lt _ hN)
        intro he
        exact hne (tau_inj mx.length s c ci hc hci (by rw [hti, ← he]))
  rw [harg]
  exact ⟨hti, hci⟩

/-- With pairwise-distinct rows, `totalClusters = N` and no links, every
cluster `c` has exactly one member: the observation whose row initialized
centroid `c`. -/
lemma clusterMembers_single (mx : Mat) (s : ℕ) (hN : 0 < mx.length)
    (hrect : ∀ row ∈ mx, row.length = (mx.headD []).length)
    (hdist : ∀ i j, i < mx.length → j < mx.length → i ≠ j →
      mx.getD i [] ≠ mx.getD j [])
    (c : ℕ) (hc : c < mx.length) :
    clusterMembers mx.length
      (assignStep mx (List.range mx.length) (initCentroids mx mx.length s)) c =
      [(s + c) % mx.length] := by
  unfold clusterMembers
  have hpred : ∀ i ∈ List.range mx.length,
      decide ((assignStep mx (List.range mx.length)
        (initCentroids mx mx.length s)).getD i 0 = c) =
      decide (i = (s + c) % mx.length) := by
    intro i hi
    have hi2 := List.mem_range.1 hi
    obtain ⟨hti, hai⟩ := assignStep_distinct_rows mx s hN hrect hdist i hi2
    rw [decide_eq_decide]
    constructor
    · intro hac
      rw [← hac]
      exact hti.symm
    · intro hic
      exact tau_inj mx.length s _ c hai hc (by rw [hti, hic])
  rw [List.filter_congr hpred]
  exact filter_range_eq_single mx.length _ (Nat.mod_lt _ hN)

/-- With pairwise-distinct rows, `totalClusters = N` and no links, the
initial centroids are a fixpoint of the iteration: every cluster has exactly
one member, whose mean is that member itself. -/
lemma stepCentroids_fixpoint (mx : Mat) (s : ℕ) (hN : 0 < mx.length)
    (hrect : ∀ row ∈ mx, row.length = (mx.headD []).length)
    (hdist : ∀ i j, i < mx.length → j < mx.length → i ≠ j →
      mx.getD i [] ≠ mx.getD j []) :
    stepCentroids mx (List.range mx.length) (initCentroids mx mx.length s) =
      initCentroids mx mx.length s := by
  unfold stepCentroids
  apply List.ext_getElem
  · rw [length_updateCentroids]
  · intro n h1 h2
    have hn : n < mx.length := by
      rw [length_initCentroids] at h2
      exact h2
    have h3 : n < (initCentroids mx mx.length s).length := by
      rw [length_initCentroids]
      exact hn
    rw [← List.getD_eq_getElem _ [] h1, ← List.getD_eq_getElem _ [] h2]
    rw [updateCentroids_getD mx _ _ n h3]
    rw [clusterMembers_single mx s hN hrect hdist n hn]
    rw [if_neg (by simp)]
    rw [show List.map (fun i => mx.getD i []) [(s + n) % mx.length] =
      [mx.getD ((s + n) % mx.length) []] from rfl]
    rw [meanRows_single, initCentroids_getD mx _ s n hn]

/-- At a fixpoint of the iteration step, the loop returns the fixpoint
centroids and the corresponding assignment, whatever the budget. -/
lemma runIters_fixpoint (mx : Mat) (groups : List ℕ) (δ : ℚ)
    (cents : List Obs) (hfix : stepCentroids mx groups cents = cents) :
    ∀ fuel, (runIters mx groups δ fuel cents).1 = assignStep mx groups cents ∧
      (runIters mx groups δ fuel cents).2.1 = cents := by
  intro fuel
  induction fuel with
  | zero => exact ⟨rfl, rfl⟩
  | succ n ih =>
    rw [runIters_succ, hfix]
    split
    · exact ⟨rfl, rfl⟩
    · exact ih

/-- With pairwise-distinct rows, `totalClusters = N` and no links, the
within-cluster sum of squares of the one-point clusters is zero. -/
lemma wcss_distinct_zero (mx : Mat) (s : ℕ) (hN : 0 < mx.length)
    (hrect : ∀ row ∈ mx, row.length = (mx.headD []).length)
    (hdist : ∀ i j, i < mx.length → j < mx.length → i ≠ j →
      mx.getD i [] ≠ mx.getD j []) :
    wcss mx (assignStep mx (List.range mx.length) (initCentroids mx mx.length s))
      (initCentroids mx mx.length s) = 0 := by
  unfold wcss
  apply List.sum_eq_zero
  intro x hx
  obtain ⟨i, hi, rfl⟩ := List.mem_map.1 hx
  have hi2 := List.mem_range.1 hi
  obtain ⟨hti, hai⟩ := assignStep_distinct_rows mx s hN hrect hdist i hi2
  rw [initCentroids_getD mx _ s _ hai, hti, sqDist_self]

/-- C5 (amended): for every matrix with pairwise-distinct rows, a successful
`cluster` call with `totalClusters = N` and no links places each observation
in its own distinct cluster and returns score exactly 0 under exact
arithmetic.  The distinctness hypothesis is forced by the counterexample:
duplicated rows always share an assignment, because the assignment of an
observation depends only on its row and the centroids. -/
theorem own_cluster_distinct_rows (mx : Mat) (δ : ℚ) (mi rs k : ℤ)
    (seeds : ℕ → ℕ) (res : ClusterResult)
    (hok : cluster mx [] δ mi rs k seeds = Except.ok res)
    (hkN : k = (mx.length : ℤ))
    (hdist : ∀ i j, i < mx.length → j < mx.length → i ≠ j →
      mx.getD i [] ≠ mx.getD j []) :
    (∀ i j, i < mx.length → j < mx.length → i ≠ j →
      res.assignment.getD i 0 ≠ res.assignment.getD j 0) ∧
    res.score = 0 := by
  obtain ⟨hvalid, r, hr, hres⟩ := cluster_ok_form mx [] δ mi rs k seeds res hok
  have hN : 0 < mx.length := by
    have h0 : (0 : ℤ) < (mx.length : ℤ) := by
      rw [← hkN]; exact hvalid.1
    exact_mod_cast h0
  have hrect := hvalid.2.2.2.2.2.1
  have hkn : k.toNat = mx.length := by
    rw [hkN]
    exact Int.toNat_natCast mx.length
  rw [buildGroups_nil] at hres
  have hfix := stepCentroids_fixpoint mx (seeds r) hN hrect hdist
  have hlc := runIters_fixpoint mx (List.range mx.length) δ
    (initCentroids mx mx.length (seeds r)) hfix mi.toNat
  have hassign : res.assignment = assignStep mx (List.range mx.length)
      (initCentroids mx mx.length (seeds r)) := by
    rw [hres, hkn]
    exact hlc.1
  have hscore : res.score = wcss mx (assignStep mx (List.range mx.length)
      (initCentroids mx mx.length (seeds r)))
      (initCentroids mx mx.length (seeds r)) := by
    rw [hres, hkn]
    have h1 : (runRestart mx (List.range mx.length) δ mi.toNat mx.length
        seeds r).score =
        wcss mx (runIters mx (List.range mx.length) δ mi.toNat
            (initCentroids mx mx.length (seeds r))).1
          (runIters mx (List.range mx.length) δ mi.toNat
            (initCentroids mx mx.length (seeds r))).2.1 := rfl
    rw [h1, hlc.1, hlc.2]
  refine ⟨?_, by
    rw [hscore]; exact wcss_distinct_zero mx (seeds r) hN hrect hdist⟩
  intro i j hi hj hne heqa
  obtain ⟨hti, hai⟩ := assignStep_distinct_rows mx (seeds r) hN hrect hdist i hi
  obtain ⟨htj, haj⟩ := assignStep_distinct_rows mx (seeds r) hN hrect hdist j hj
  rw [hassign] at heqa
  apply hne
  rw [← hti, ← htj, heqa]

/-- Counterexample to C5 as stated: the matrix `[[0], [0]]` has `N = 2`
rows, the call with `totalClusters = 2` and no links succeeds, yet the two
observations land in the same cluster (`assignment = [0, 0]`), so not every
observation is in its own distinct cluster. -/
theorem own_cluster_duplicate_rows_cex :
    cluster [[0], [0]] [] 0 1 1 2 (fun _ => 0) =
      Except.ok ⟨[0, 0], [[0], [0]], 0⟩ ∧
    (⟨[0, 0], [[0], [0]], (0 : ℚ)⟩ : ClusterResult).assignment.getD 0 0 =
      (⟨[0, 0], [[0], [0]], (0 : ℚ)⟩ : ClusterResult).assignment.getD 1 0 := by
  refine ⟨?_, rfl⟩
  norm_num [cluster, validInput, runRestart, runIters, stepCentroids,
    updateCentroids, assignStep, argminIdx, pickBest, groupCost, buildGroups,
    mergeGroups, clusterMembers, initCentroids, wcss, sqDist, movement,
    meanRows, vadd, List.range_succ, show Int.toNat 2 = 2 from rfl]

/-- Witness for the amended C5 at a concrete input with distinct rows. -/
theorem own_cluster_distinct_rows_witness :
    cluster [[0], [1]] [] 0 1 1 2 (fun _ => 0) =
      Except.ok ⟨[0, 1], [[0], [1]], 0⟩ ∧
    ((∀ i j, i < 2 → j < 2 → i ≠ j →
      (⟨[0, 1], [[0], [1]], (0 : ℚ)⟩ : ClusterResult).assignment.getD i 0 ≠
        (⟨[0, 1], [[0], [1]], (0 : ℚ)⟩ : ClusterResult).assignment.getD j 0) ∧
    (⟨[0, 1], [[0], [1]], (0 : ℚ)⟩ : ClusterResult).score = 0) := by
  have hok : cluster [[0], [1]] [] 0 1 1 2 (fun _ => 0) =
      Except.ok ⟨[0, 1], [[0], [1]], 0⟩ := by
    norm_num [cluster, validInput, runRestart, runIters, stepCentroids,
      updateCentroids, assignStep, argminIdx, pickBest, groupCost, buildGroups,
      mergeGroups, clusterMembers, initCentroids, wcss, sqDist, movement,
      meanRows, vadd, List.range_succ, show Int.toNat 2 = 2 from rfl]
  refine ⟨hok, own_cluster_distinct_rows [[0], [1]] 0 1 1 2 (fun _ => 0)
    ⟨[0, 1], [[0], [1]], 0⟩ hok (by norm_num) ?_⟩
  intro i j hi hj hne
  simp only [List.length_cons, List.length_nil] at hi hj
  interval_cases i <;> interval_cases j <;>
    simp_all [List.getD_cons_zero, getD_cons_one]

/-! ### Claim C6: the parser's error taxonomy -/

/-- C6: `parse` fails with exactly one of the three typed errors, each
equivalent to its condition: `fileNotFound` when the path resolves to no
file, `formatError` when the header magic is unrecognized,
`resolutionNotFound` when the requested resolution is absent from the
index.  Every call either fails with such an error, returning no records at
all, or returns the full requested-resolution extraction with every record
tagged with the given sample name and resolution. -/
lemma parse_some (fs : String → Option HiCFile) (fname : String) (res : ℤ)
    (name : String) (f : HiCFile) (h : fs fname = some f) :
    parseHiCFile fs fname res name =
      if f.magicOk = true then
        match f.sections.lookup res with
        | none => Except.error ParseError.resolutionNotFound
        | some entries => Except.ok (entries.map (toRecord name res))
      else Except.error ParseError.formatError := by
  unfold parseHiCFile
  rw [h]

theorem parse_error_taxonomy (fs : String → Option HiCFile) (fname : String)
    (res : ℤ) (name : String) :
    (parseHiCFile fs fname res name = Except.error ParseError.fileNotFound ↔
      fs fname = none) ∧
    (parseHiCFile fs fname res name = Except.error ParseError.formatError ↔
      ∃ f, fs fname = some f ∧ f.magicOk = false) ∧
    (parseHiCFile fs fname res name =
        Except.error ParseError.resolutionNotFound ↔
      ∃ f, fs fname = some f ∧ f.magicOk = true ∧
        f.sections.lookup res = none) ∧
    ((∃ e, parseHiCFile fs fname res name = Except.error e) ∨
      ∃ recs, parseHiCFile fs fname res name = Except.ok recs ∧
        ∀ rec ∈ recs, rec.sampleName = name ∧ rec.resolution = res) := by
  cases hfs : fs fname with
  | none =>
    have hval : parseHiCFile fs fname res name =
        Except.error ParseError.fileNotFound := by
      unfold parseHiCFile
      rw [hfs]
    rw [hval]
    refine ⟨⟨fun _ => rfl, fun _ => rfl⟩, ⟨fun h => absurd h (by simp), ?_⟩,
      ⟨fun h => absurd h (by simp), ?_⟩,
      Or.inl ⟨ParseError.fileNotFound, rfl⟩⟩
    · rintro ⟨f2, hf2, _⟩
      exact Option.noConfusion hf2
    · rintro ⟨f2, hf2, _, _⟩
      exact Option.noConfusion hf2
  | some f =>
    cases hmagic : f.magicOk with
    | false =>
      have hval : parseHiCFile fs fname res name =
          Except.error ParseError.formatError := by
        rw [parse_some fs fname res name f hfs, hmagic, if_neg (by simp)]
      rw [hval]
      refine ⟨⟨fun h => absurd h (by simp), fun h => ?_⟩,
        ⟨fun _ => ⟨f, rfl, hmagic⟩, fun _ => rfl⟩,
        ⟨fun h => absurd h (by simp), ?_⟩,
        Or.inl ⟨ParseError.formatError, rfl⟩⟩
      · exact Option.noConfusion h
      · rintro ⟨f2, hf2, hm2, _⟩
        injection hf2 with hf2e
        rw [← hf2e, hmagic] at hm2
        exact Bool.noConfusion hm2
    | true =>
      cases hlook : f.sections.lookup res with
      | none =>
        have hval : parseHiCFile fs fname res name =
            Except.error ParseError.resolutionNotFound := by
          rw [parse_some fs fname res name f hfs, hmagic, if_pos rfl, hlook]
        rw [hval]
        refine ⟨⟨fun h => absurd h (by simp), fun h => ?_⟩,
          ⟨fun h => absurd h (by simp), ?_⟩,
          ⟨fun _ => ⟨f, rfl, hmagic, hlook⟩, fun _ => rfl⟩,
          Or.inl ⟨ParseError.resolutionNotFound, rfl⟩⟩
        · exact Option.noConfusion h
        · rintro ⟨f2, hf2, hm2⟩
          injection hf2 with hf2e
          rw [← hf2e, hmagic] at hm2
          exact Bool.noConfusion hm2
      | some entries =>
        have hval : parseHiCFile fs fname res name =
            Except.ok (entries.map (toRecord name res)) := by
          rw [parse_some fs fname res name f hfs, hmagic, if_pos rfl, hlook]
        rw [hval]
        refine ⟨⟨fun h => absurd h (by simp), fun h => ?_⟩,
          ⟨fun h => absurd h (by simp), ?_⟩,
          ⟨fun h => absurd h (by simp), ?_⟩,
          Or.inr ⟨entries.map (toRecord name res), rfl, ?_⟩⟩
        · exact Option.noConfusion h
        · rintro ⟨f2, hf2, hm2⟩
          injection hf2 with hf2e
          rw [← hf2e, hmagic] at hm2
          exact Bool.noConfusion hm2
        · rintro ⟨f2, hf2, _, hl2⟩
          injection hf2 with hf2e
          rw [← hf2e, hlook] at hl2
          exact Option.noConfusion hl2
        · intro rec hrec
          obtain ⟨e, _, rfl⟩ := List.mem_map.1 hrec
          exact ⟨rfl, rfl⟩

/-! ### Claim C7: round-trip through a synthetically constructed file -/

/-- C7: a synthetically constructed valid file holding `K` known contact
entries at resolution `R`, parsed at resolution `R`, yields exactly `K`
records, in order, each the original entry tagged with the given sample
name and resolution. -/
theorem parse_round_trip (entries : List ContactEntry) (R : ℤ)
    (fname name : String) :
    parseHiCFile
        (fun p => if p = fname then some ⟨true, [(R, entries)]⟩ else none)
        fname R name = Except.ok (entries.map (toRecord name R)) ∧
    (entries.map (toRecord name R)).length = entries.length ∧
    ∀ i, i < entries.length →
      (entries.map (toRecord name R)).getD i (toRecord name R ⟨0, 0, 0, 0⟩) =
        toRecord name R (entries.getD i ⟨0, 0, 0, 0⟩) := by
  refine ⟨?_, List.length_map entries _, ?_⟩
  · unfold parseHiCFile
    simp [List.lookup]
  · intro i hi
    exact getD_map_lt _ entries i ⟨0, 0, 0, 0⟩ _ hi

/-! ### Claim C10: the registered entry points -/

/-- C10: loading the shared library registers exactly the two entry points
of `CallEntries` — `_HiCDOC_constrainedClustering` with arity 6 and
`_HiCDOC_parseHiCFile` with arity 3 — and disables dynamic symbol lookup,
so resolving any other symbol name against the registration finds no
routine. -/
theorem registration_entry_points :
    R_init_HiCDOC.callRoutines = CallEntries ∧
    CallEntries = [⟨"_HiCDOC_constrainedClustering", 6⟩,
      ⟨"_HiCDOC_parseHiCFile", 3⟩] ∧
    R_init_HiCDOC.dynamicSymbols = false ∧
    lookupRoutine R_init_HiCDOC "_HiCDOC_constrainedClustering" =
      some ⟨"_HiCDOC_constrainedClustering", 6⟩ ∧
    lookupRoutine R_init_HiCDOC "_HiCDOC_parseHiCFile" =
      some ⟨"_HiCDOC_parseHiCFile", 3⟩ ∧
    ∀ s, s ≠ "_HiCDOC_constrainedClustering" → s ≠ "_HiCDOC_parseHiCFile" →
      lookupRoutine R_init_HiCDOC s = none := by
  refine ⟨rfl, rfl, rfl, rfl, rfl, ?_⟩
  intro s h1 h2
  have e1 : (("_HiCDOC_constrainedClustering" : String) == s) = false :=
    beq_eq_false_iff_ne.2 (Ne.symm h1)
  have e2 : (("_HiCDOC_parseHiCFile" : String) == s) = false :=
    beq_eq_false_iff_ne.2 (Ne.symm h2)
  simp [lookupRoutine, R_init_HiCDOC, CallEntries, List.find?, e1, e2]

end HiCDOC
